import Mathlib

/-
Shallow embedding of `pep425.py` (PEP 425 compatibility-tag computation).

Python strings are modelled as `List Char` (all strings involved are ASCII);
`str.lower` is a character-wise ASCII lowercasing; fallible operations
(`ValueError` from tuple unpacking or `str.rindex`) are modelled with
`Option`, and the exception-raising platform helpers with `Except PyError`.
Host facts (the results of `platform.mac_ver()`, `platform.system()`,
`distutils.util.get_platform()`, `sys.maxsize`-derived 32-bitness and the
optional `_manylinux` module) are opaque inputs, passed explicitly.
-/

namespace Pep425

/-- Python strings, modelled as lists of characters. -/
abbrev PyStr := List Char

/-- Literal helper turning a Lean string literal into the `List Char` model. -/
def pys (s : String) : PyStr := s.toList

/-- Python `str.lower` on ASCII strings: lowercase each character. -/
def pyLower (s : PyStr) : PyStr := s.map Char.toLower

/-- Python `str.split(sep)` for a one-character separator `sep`:
`"".split(sep) == [""]`, adjacent separators produce empty segments, and the
result is never the empty list. -/
def splitOnChar (sep : Char) : PyStr → List PyStr
  | [] => [[]]
  | c :: cs =>
    if c = sep then [] :: splitOnChar sep cs
    else
      match splitOnChar sep cs with
      | [] => [[c]]
      | r :: rs => (c :: r) :: rs

/-- Recursion core of `str.replace`, structural on a fuel argument that
bounds the number of characters still to be consumed (each step consumes at
least one character, so `s.length` fuel is always enough). -/
def pyReplaceFuel (old new : PyStr) : Nat → PyStr → PyStr
  | 0, s => s
  | _ + 1, [] => []
  | fuel + 1, c :: rest =>
    if old ≠ [] ∧ old.isPrefixOf (c :: rest) then
      new ++ pyReplaceFuel old new fuel ((c :: rest).drop old.length)
    else
      c :: pyReplaceFuel old new fuel rest

/-- Python `str.replace(old, new)` for a nonempty `old`: replace each
leftmost, non-overlapping occurrence of `old` by `new`.  (The `old = ""`
case of Python is never exercised by the source and is modelled as the
identity.) -/
def pyReplace (old new s : PyStr) : PyStr :=
  pyReplaceFuel old new s.length s

/-- The index of the last occurrence of `c` (Python `str.rindex` over the
whole string), `none` when `c` does not occur. -/
def lastIdx (c : Char) : PyStr → Option Nat
  | [] => none
  | x :: xs =>
    match lastIdx c xs with
    | some i => some (i + 1)
    | none => if x = c then some 0 else none

/-- Python `name.rindex(c, 0, stop)`: the largest index `i < stop` with
`name[i] = c`; `none` models the `ValueError`. -/
def rindexBelow (name : PyStr) (c : Char) (stop : Nat) : Option Nat :=
  lastIdx c (name.take stop)

/-- The `Tag` value type: the interpreter/ABI/platform triple.  The stored
components are the (lowercased) `self._tags` tuple. -/
structure Tag where
  interpreter : PyStr
  abi : PyStr
  platform : PyStr
  deriving DecidableEq

/-- Embedding of `Tag.__init__`: all three components are lowercased on construction. -/
def mkTag (interpreter abi platform : PyStr) : Tag :=
  ⟨pyLower interpreter, pyLower abi, pyLower platform⟩

/-- Embedding of `Tag.__str__`: `"-".join(self._tags)` for the three stored components. -/
def tagStr (t : Tag) : PyStr :=
  t.interpreter ++ '-' :: t.abi ++ '-' :: t.platform

/-- Embedding of `parse_tag`: split the string on `-`; the triple unpacking raises
`ValueError` (here `none`) unless there are exactly three segments; then
collect `Tag(interpreter, abi, platform)` over the dot-split segments into a
set. -/
def parse_tag (tag : PyStr) : Option (Finset Tag) :=
  match splitOnChar '-' tag with
  | [interpreters, abis, platforms] =>
    some (((splitOnChar '.' interpreters).flatMap fun interpreter =>
      (splitOnChar '.' abis).flatMap fun abi =>
        (splitOnChar '.' platforms).map fun platform =>
          mkTag interpreter abi platform)).toFinset
  | _ => none

/-- Model of `os.path.splitext` (posix flavour, separator `/`): split off the final
extension, keeping leading dots of the basename attached to the root. -/
def splitext (p : PyStr) : PyStr × PyStr :=
  let sepIndex : Int := match lastIdx '/' p with | some i => (i : Int) | none => -1
  let dotIndex : Int := match lastIdx '.' p with | some i => (i : Int) | none => -1
  if sepIndex < dotIndex then
    if ((p.drop (sepIndex + 1).toNat).take (dotIndex - sepIndex - 1).toNat).any
        (fun ch => ch ≠ '.') then
      (p.take dotIndex.toNat, p.drop dotIndex.toNat)
    else (p, [])
  else (p, [])

/-- Embedding of `parse_wheel_tag`: strip the extension, find the third hyphen from the
end by three successive `rindex` calls (a missing hyphen raises `ValueError`,
modelled as `none`), and parse the suffix after the third one. -/
def parse_wheel_tag (path : PyStr) : Option (Finset Tag) :=
  let name := (splitext path).1
  match rindexBelow name '-' name.length with
  | none => none
  | some i1 =>
    match rindexBelow name '-' i1 with
    | none => none
    | some i2 =>
      match rindexBelow name '-' i2 with
      | none => none
      | some i3 => parse_tag (name.drop (i3 + 1))

/-- Embedding of `_normalize_string`: `string.replace(".", "_").replace("-", "_")`. -/
def _normalize_string (string : PyStr) : PyStr :=
  pyReplace (pys "-") (pys "_") (pyReplace (pys ".") (pys "_") string)

/-- Decimal rendering of a natural number, for the `format` calls. -/
def natStr (n : Nat) : PyStr := (Nat.repr n).toList

/-- The `"cp{major}{minor}".format(...)` strings. -/
def cpFormat (major minor : Nat) : PyStr :=
  pys "cp" ++ natStr major ++ natStr minor

/-- Embedding of `_cpython_interpreter`. -/
def _cpython_interpreter (py_version : Nat × Nat) : PyStr :=
  cpFormat py_version.1 py_version.2

/-- Embedding of `_cpython_tags`: the three `(interpreter, abi)`, `(interpreter, "abi3")`,
`(interpreter, "none")` blocks, each over all platforms, then
`cp{major}{m}`/`abi3` for `m` in `range(py_version[1] - 1, 1, -1)` (the
descending list `py_version.2 - 1, ..., 2`, empty when `py_version.2 ≤ 2`,
matching Python's behaviour also for minor versions 0 and 1). -/
def _cpython_tags (py_version : Nat × Nat) (interpreter abi : PyStr)
    (platforms : List PyStr) : List Tag :=
  (platforms.map fun platform => mkTag interpreter abi platform)
  ++ (platforms.map fun platform => mkTag interpreter (pys "abi3") platform)
  ++ (platforms.map fun platform => mkTag interpreter (pys "none") platform)
  ++ (((List.range (py_version.2 - 1 - 1)).map fun i => py_version.2 - 1 - i).flatMap
        fun minor_version => platforms.map fun platform =>
          mkTag (cpFormat py_version.1 minor_version) (pys "abi3") platform)

/-- Embedding of `_mac_arch`: on a 32-bit interpreter remap `ppc*` to `ppc` and everything
else to `i386`; otherwise keep the architecture. -/
def _mac_arch (arch : PyStr) (is_32bit : Bool) : PyStr :=
  if is_32bit then
    if (pys "ppc").isPrefixOf arch then pys "ppc" else pys "i386"
  else arch

/-- Python tuple comparison `v <= w` on pairs of naturals (lexicographic). -/
def verLE (v w : Nat × Nat) : Bool :=
  v.1 < w.1 || (v.1 = w.1 && v.2 ≤ w.2)

/-- Python tuple comparison `v < w` on pairs of naturals (lexicographic). -/
def verLT (v w : Nat × Nat) : Bool :=
  v.1 < w.1 || (v.1 = w.1 && v.2 < w.2)

/-- Embedding of `_mac_binary_formats`: the alias list for a `(version, cpu_arch)` pair.
The source starts from `formats = [cpu_arch]`, either returns `[]` early or
extends with the table's aliases, and finally appends `"universal"`; the
resulting lists are written out here branch by branch. -/
def _mac_binary_formats (version : Nat × Nat) (cpu_arch : PyStr) : List PyStr :=
  if cpu_arch = pys "x86_64" then
    if verLE (10, 4) version then
      [cpu_arch, pys "intel", pys "fat64", pys "fat32", pys "universal"]
    else []
  else if cpu_arch = pys "i386" then
    if verLE (10, 4) version then
      [cpu_arch, pys "intel", pys "fat32", pys "fat", pys "universal"]
    else []
  else if cpu_arch = pys "ppc64" then
    if verLT (10, 5) version || verLT version (10, 4) then []
    else [cpu_arch, pys "fat64", pys "universal"]
  else if cpu_arch = pys "ppc" then
    if verLE version (10, 6) then
      [cpu_arch, pys "fat32", pys "fat", pys "universal"]
    else []
  else [cpu_arch, pys "universal"]

/-- The `"macosx_{major}_{minor}_{binary_format}"` strings. -/
def macosxTag (major minor : Nat) (binary_format : PyStr) : PyStr :=
  pys "macosx_" ++ natStr major ++ pys "_" ++ natStr minor ++ pys "_" ++ binary_format

/-- The host facts returned by `platform.mac_ver()`: the parsed two-component
release and the machine (CPU architecture) string. -/
structure MacVer where
  release : Nat × Nat
  machine : PyStr

/-- Embedding of `_mac_platforms`.  Note the faithful rendering of the source's defect:
the local `arch` (from the `arch` parameter or `_mac_arch`) is computed but
never used; `_mac_binary_formats` is keyed on `cpu_arch`, the machine value
host-detected by `platform.mac_ver()`.  The minor versions iterate over
`range(version[1], -1, -1)`, i.e. `version.2` down to `0`. -/
def _mac_platforms (mac_ver : MacVer) (version : Option (Nat × Nat))
    (arch : Option PyStr) (is_32bit : Bool) : List PyStr :=
  let cpu_arch := mac_ver.machine
  let version := version.getD mac_ver.release
  let arch := arch.getD (_mac_arch cpu_arch is_32bit)
  ((List.range (version.2 + 1)).map fun i => version.2 - i).flatMap
    fun minor_version =>
      (_mac_binary_formats (version.1, minor_version) cpu_arch).map
        fun binary_format => macosxTag version.1 minor_version binary_format

/-- The exceptions the platform helpers can raise. -/
inductive PyError where
  | NotImplementedError
  | NameError
  deriving DecidableEq

/-- Embedding of `_windows_platforms`: it raises `NotImplementedError`. -/
def _windows_platforms : Except PyError (List PyStr) :=
  .error .NotImplementedError

/-- Embedding of `_is_manylinux1_compatible`.  The optional `_manylinux` module is the
`manylinux_module` input (`some b` for a module exposing
`manylinux1_compatible` with truth value `b`, `none` for
`ImportError`/`AttributeError`).  When the module is absent the source calls
`have_compatible_glibc(2, 5)`, but only `_have_compatible_glibc` is defined,
so that path raises `NameError`. -/
def _is_manylinux1_compatible (plat : PyStr) (manylinux_module : Option Bool) :
    Except PyError Bool :=
  if plat ∉ [pys "linux_x86_64", pys "linux_i686"] then .ok false
  else
    match manylinux_module with
    | some compatible => .ok compatible
    | none => .error .NameError

/-- Embedding of `_linux_platforms`: normalize `distutils.util.get_platform()`, rewrite
`linux_x86_64` to `linux_i686` on a 32-bit interpreter, and append the
`manylinux1` variant when the compatibility check passes. -/
def _linux_platforms (get_platform : PyStr) (manylinux_module : Option Bool)
    (is_32bit : Bool) : Except PyError (List PyStr) :=
  let linux := _normalize_string get_platform
  let linux := if linux = pys "linux_x86_64" ∧ is_32bit then pys "linux_i686" else linux
  match _is_manylinux1_compatible linux manylinux_module with
  | .error e => .error e
  | .ok compatible =>
    .ok (if compatible then [linux, pyReplace (pys "linux") (pys "manylinux1") linux]
         else [linux])

/-- Embedding of `_generic_platforms`: the normalized `distutils.util.get_platform()`. -/
def _generic_platforms (get_platform : PyStr) : List PyStr :=
  [_normalize_string get_platform]

/-- The `elif platform.system == "Linux"` test in `sys_tags` compares the
function object itself (not its call result) with a string; in Python this
comparison is always `False`. -/
def system_function_equals_linux : Bool := false

/-- The host facts `sys_tags` reads for its platform selection. -/
structure Host where
  system : PyStr
  mac_ver : MacVer
  get_platform : PyStr
  manylinux_module : Option Bool
  is_32bit : Bool

/-- The platform-list selection of `sys_tags` (its lines choosing between
`_mac_platforms()`, `_linux_platforms()` and `_generic_platforms()`). -/
def sys_tags_platforms (host : Host) : Except PyError (List PyStr) :=
  if host.system = pys "Darwin" then
    .ok (_mac_platforms host.mac_ver none none host.is_32bit)
  else if system_function_equals_linux then
    _linux_platforms host.get_platform host.manylinux_module host.is_32bit
  else
    .ok (_generic_platforms host.get_platform)

/-! Auxiliary lemmas about the string model. -/

theorem splitOnChar_of_not_mem {sep : Char} {s : PyStr} (h : sep ∉ s) :
    splitOnChar sep s = [s] := by
  induction s with
  | nil => rfl
  | cons c cs ih =>
    rw [splitOnChar, if_neg (by rintro rfl; exact h (List.mem_cons_self c cs)),
      ih (fun hm => h (List.mem_cons_of_mem c hm))]

theorem splitOnChar_append {sep : Char} {u : PyStr} (v : PyStr) (h : sep ∉ u) :
    splitOnChar sep (u ++ sep :: v) = u :: splitOnChar sep v := by
  induction u with
  | nil =>
    rw [List.nil_append, splitOnChar, if_pos rfl]
  | cons c cs ih =>
    rw [List.cons_append, splitOnChar,
      if_neg (by rintro rfl; exact h (List.mem_cons_self c cs)),
      ih (fun hm => h (List.mem_cons_of_mem c hm))]

theorem toLower_toLower (c : Char) : c.toLower.toLower = c.toLower := by
  by_cases h : 65 ≤ c.toNat ∧ c.toNat ≤ 90
  · have h1 : c.toLower = Char.ofNat (c.toNat + 32) := by
      rw [Char.toLower, if_pos h]
    rw [h1]
    obtain ⟨ha, hb⟩ := h
    set n := c.toNat with hn
    interval_cases n <;> decide
  · have h1 : c.toLower = c := by
      rw [Char.toLower, if_neg h]
    rw [h1, h1]

theorem pyLower_pyLower (s : PyStr) : pyLower (pyLower s) = pyLower s := by
  rw [pyLower, pyLower, List.map_map]
  exact List.map_congr_left fun c _ => toLower_toLower c

theorem mkTag_pyLower (i a p : PyStr) :
    mkTag (pyLower i) (pyLower a) (pyLower p) = mkTag i a p := by
  rw [mkTag, mkTag, pyLower_pyLower, pyLower_pyLower, pyLower_pyLower]

theorem lastIdx_of_not_mem {c : Char} {s : PyStr} (h : c ∉ s) :
    lastIdx c s = none := by
  induction s with
  | nil => rfl
  | cons x xs ih =>
    rw [lastIdx, ih (fun hm => h (List.mem_cons_of_mem x hm)),
      if_neg (by rintro rfl; exact h (List.mem_cons_self x xs))]

theorem lastIdx_append (u : PyStr) {c : Char} {v : PyStr} (h : c ∉ v) :
    lastIdx c (u ++ c :: v) = some u.length := by
  induction u with
  | nil =>
    rw [List.nil_append, lastIdx, lastIdx_of_not_mem h, if_pos rfl, List.length_nil]
  | cons x xs ih =>
    rw [List.cons_append, lastIdx, ih, List.length_cons]

theorem length_flatMap_const {α β : Type} (l : List α) (f : α → List β) (n : Nat)
    (h : ∀ x ∈ l, (f x).length = n) : (l.flatMap f).length = n * l.length := by
  induction l with
  | nil => simp
  | cons x xs ih =>
    rw [List.flatMap_cons, List.length_append, h x (List.mem_cons_self x xs),
      ih (fun y hy => h y (List.mem_cons_of_mem x hy)), List.length_cons,
      Nat.mul_succ, Nat.add_comm]

/-! The claims. -/

/-- C1: for every input string splitting on `-` into exactly three segments,
`parse_tag` returns exactly the set of Tags formed by the cartesian product
of the dot-separated interpreter tokens × abi tokens × platform tokens, each
token lowercased by the Tag constructor; in particular
`parse_tag "a.b-c-d"` is the two-tag set of `("a","c","d")` and
`("b","c","d")`. -/
theorem c1_parse_tag_cartesian_product :
    (∀ tag I A P : PyStr, splitOnChar '-' tag = [I, A, P] →
      ∃ S, parse_tag tag = some S ∧
        ∀ t, t ∈ S ↔ ∃ i ∈ splitOnChar '.' I, ∃ a ∈ splitOnChar '.' A,
          ∃ p ∈ splitOnChar '.' P, t = mkTag i a p) ∧
    parse_tag (pys "a.b-c-d") =
      some {mkTag (pys "a") (pys "c") (pys "d"), mkTag (pys "b") (pys "c") (pys "d")} := by
  constructor
  · intro tag I A P h
    refine ⟨((splitOnChar '.' I).flatMap fun interpreter =>
        (splitOnChar '.' A).flatMap fun abi =>
          (splitOnChar '.' P).map fun platform =>
            mkTag interpreter abi platform).toFinset, ?_, ?_⟩
    · rw [parse_tag, h]
    · intro t
      simp only [List.mem_toFinset, List.mem_flatMap, List.mem_map]
      constructor
      · rintro ⟨i, hi, a, ha, p, hp, rfl⟩
        exact ⟨i, hi, a, ha, p, hp, rfl⟩
      · rintro ⟨i, hi, a, ha, p, hp, rfl⟩
        exact ⟨i, hi, a, ha, p, hp, rfl⟩
  · decide

/-- C1 witness: the general statement applied to the concrete expression
`"py2.py3-none-any"`. -/
theorem c1_witness :
    ∃ S, parse_tag (pys "py2.py3-none-any") = some S ∧
      ∀ t, t ∈ S ↔ ∃ i ∈ splitOnChar '.' (pys "py2.py3"),
        ∃ a ∈ splitOnChar '.' (pys "none"), ∃ p ∈ splitOnChar '.' (pys "any"),
          t = mkTag i a p :=
  c1_parse_tag_cartesian_product.1 (pys "py2.py3-none-any") (pys "py2.py3")
    (pys "none") (pys "any") (by decide)

/-- C7: `parse_tag` fails (the tuple unpacking raises, modelled as `none`)
exactly on the strings that do not split into three hyphen-delimited
segments, and succeeds on every string that does. -/
theorem c7_parse_tag_failure_iff :
    ∀ tag : PyStr, (parse_tag tag).isSome = true ↔ (splitOnChar '-' tag).length = 3 := by
  intro tag
  rw [parse_tag]
  rcases splitOnChar '-' tag with _ | ⟨a, _ | ⟨b, _ | ⟨c, _ | ⟨d, l⟩⟩⟩⟩ <;> simp

/-- C8 counterexample: the round-trip `parse_tag (str t) = set-of t` fails for
the Tag built from the components `"a.b"`, `"c"`, `"d"` — the dot in the
first component makes the parser expand it into two tags. -/
theorem c8_counterexample :
    parse_tag (tagStr (mkTag (pys "a.b") (pys "c") (pys "d"))) ≠
      some {mkTag (pys "a.b") (pys "c") (pys "d")} := by decide

/-- C8 (amended): for a Tag built from three components that (after the
constructor's lowercasing) contain neither `-` nor `.`, parsing its canonical
string form returns exactly the one-element set containing it. -/
theorem c8_roundtrip_amended :
    ∀ i a p : PyStr,
      '-' ∉ pyLower i → '.' ∉ pyLower i →
      '-' ∉ pyLower a → '.' ∉ pyLower a →
      '-' ∉ pyLower p → '.' ∉ pyLower p →
      parse_tag (tagStr (mkTag i a p)) = some {mkTag i a p} := by
  intro i a p hi1 hi2 ha1 ha2 hp1 hp2
  have hsplit : splitOnChar '-' (tagStr (mkTag i a p)) =
      [pyLower i, pyLower a, pyLower p] := by
    simp only [tagStr, mkTag, List.append_assoc, List.cons_append]
    rw [splitOnChar_append (pyLower a ++ '-' :: pyLower p) hi1,
      splitOnChar_append (pyLower p) ha1, splitOnChar_of_not_mem hp1]
  rw [parse_tag, hsplit]
  simp only [splitOnChar_of_not_mem hi2, splitOnChar_of_not_mem ha2,
    splitOnChar_of_not_mem hp2, List.flatMap_cons, List.flatMap_nil, List.map_cons,
    List.map_nil, List.append_nil, mkTag_pyLower]
  rfl

/-- C8 witness: the amended round-trip at the concrete Tag
`("PY3", "none", "ANY")`. -/
theorem c8_witness :
    parse_tag (tagStr (mkTag (pys "PY3") (pys "none") (pys "ANY"))) =
      some {mkTag (pys "PY3") (pys "none") (pys "ANY")} :=
  c8_roundtrip_amended (pys "PY3") (pys "none") (pys "ANY")
    (by decide) (by decide) (by decide) (by decide) (by decide) (by decide)

theorem desc_range (minor : Nat) :
    (List.range (minor - 1 - 1)).map (fun i => minor - 1 - i) =
      (List.range' 2 (minor - 2)).reverse := by
  rw [List.reverse_range']
  have h : minor - 1 - 1 = minor - 2 := by omega
  rw [h]
  exact List.map_congr_left fun i hi => by
    have := List.mem_range.1 hi
    omega

/-- C2: the CPython generator yields the `(interpreter, abi)`,
`(interpreter, "abi3")`, `(interpreter, "none")` tiers in order, each
expanded across all platforms with platform varying fastest, then
`(cp{major}{m}, "abi3")` for the older minors `m` from `minor − 1` down to
`2`, newest first; for version `(3,3)`, `cp33`, `cp33m`, platforms
`[p1, p2]` this is exactly the expected 8-tag sequence. -/
theorem c2_cpython_tags_order :
    (∀ (major minor : Nat) (interpreter abi : PyStr) (platforms : List PyStr),
      _cpython_tags (major, minor) interpreter abi platforms =
        ([(interpreter, abi), (interpreter, pys "abi3"), (interpreter, pys "none")].flatMap
          fun tier => platforms.map fun platform => mkTag tier.1 tier.2 platform)
        ++ ((List.range' 2 (minor - 2)).reverse.flatMap
              fun older => platforms.map fun platform =>
                mkTag (cpFormat major older) (pys "abi3") platform)) ∧
    _cpython_tags (3, 3) (pys "cp33") (pys "cp33m") [pys "p1", pys "p2"] =
      [mkTag (pys "cp33") (pys "cp33m") (pys "p1"),
       mkTag (pys "cp33") (pys "cp33m") (pys "p2"),
       mkTag (pys "cp33") (pys "abi3") (pys "p1"),
       mkTag (pys "cp33") (pys "abi3") (pys "p2"),
       mkTag (pys "cp33") (pys "none") (pys "p1"),
       mkTag (pys "cp33") (pys "none") (pys "p2"),
       mkTag (pys "cp32") (pys "abi3") (pys "p1"),
       mkTag (pys "cp32") (pys "abi3") (pys "p2")] := by
  constructor
  · intro major minor interpreter abi platforms
    simp only [_cpython_tags, List.flatMap_cons, List.flatMap_nil, List.append_nil,
      List.append_assoc, ← desc_range]
  · decide

/-- C9: for a path whose stem (the filename with the final extension
stripped) ends in a trailing `I-A-P` suffix preceded by a hyphen, where none
of `I`, `A`, `P` contains a hyphen — i.e. the suffix after the 3rd-from-last
hyphen of the stem — `parse_wheel_tag` returns the expression parser's
result on that suffix; in particular `"pkg-1.0-py2.py3-none-any.whl"` yields
the two tags `("py2","none","any")` and `("py3","none","any")`. -/
theorem c9_parse_wheel_tag_suffix :
    (∀ path pre I A P : PyStr,
      (splitext path).1 = pre ++ '-' :: (I ++ '-' :: (A ++ '-' :: P)) →
      '-' ∉ I → '-' ∉ A → '-' ∉ P →
      parse_wheel_tag path = parse_tag (I ++ '-' :: (A ++ '-' :: P))) ∧
    parse_wheel_tag (pys "pkg-1.0-py2.py3-none-any.whl") =
      some {mkTag (pys "py2") (pys "none") (pys "any"),
            mkTag (pys "py3") (pys "none") (pys "any")} := by
  constructor
  · intro path pre I A P hstem hI hA hP
    have e1 : pre ++ '-' :: (I ++ '-' :: (A ++ '-' :: P)) =
        ((pre ++ '-' :: I) ++ '-' :: A) ++ '-' :: P := by
      simp [List.append_assoc, List.cons_append]
    have e2 : pre ++ '-' :: (I ++ '-' :: (A ++ '-' :: P)) =
        (pre ++ '-' :: I) ++ '-' :: (A ++ '-' :: P) := by
      simp [List.append_assoc, List.cons_append]
    have e3 : pre ++ '-' :: (I ++ '-' :: (A ++ '-' :: P)) =
        (pre ++ ['-']) ++ (I ++ '-' :: (A ++ '-' :: P)) := by
      simp [List.append_assoc, List.cons_append]
    have h1 : rindexBelow (splitext path).1 '-' (splitext path).1.length =
        some (((pre ++ '-' :: I) ++ '-' :: A).length) := by
      rw [rindexBelow, List.take_length, hstem, e1]
      exact lastIdx_append ((pre ++ '-' :: I) ++ '-' :: A) hP
    have h2 : rindexBelow (splitext path).1 '-' (((pre ++ '-' :: I) ++ '-' :: A).length) =
        some ((pre ++ '-' :: I).length) := by
      rw [rindexBelow, hstem, e1, List.take_left]
      exact lastIdx_append (pre ++ '-' :: I) hA
    have h3 : rindexBelow (splitext path).1 '-' ((pre ++ '-' :: I).length) =
        some pre.length := by
      rw [rindexBelow, hstem, e2, List.take_left]
      exact lastIdx_append pre hI
    have h4 : (splitext path).1.drop (pre.length + 1) = I ++ '-' :: (A ++ '-' :: P) := by
      rw [hstem, e3]
      exact List.drop_left' (by simp)
    rw [parse_wheel_tag]
    simp only [h1, h2, h3, h4]
  · decide

/-- C9 witness: the general statement applied to the concrete filename
`"pip-18.0-py2.py3-none-any.whl"`. -/
theorem c9_witness :
    parse_wheel_tag (pys "pip-18.0-py2.py3-none-any.whl") =
      parse_tag (pys "py2.py3" ++ '-' :: (pys "none" ++ '-' :: pys "any")) :=
  c9_parse_wheel_tag_suffix.1 (pys "pip-18.0-py2.py3-none-any.whl")
    (pys "pip-18.0") (pys "py2.py3") (pys "none") (pys "any")
    (by decide) (by decide) (by decide) (by decide)

/-- C3 counterexample: with OS version `(10, 17)` and architecture `x86_64`
the macOS provider returns 70 platform strings, not `18 × 5 = 90` — the
x86_64 table contributes nothing below version `10.4`, so only the 14 minor
versions from 17 down to 4 contribute. -/
theorem c3_counterexample :
    (_mac_platforms ⟨(10, 14), pys "x86_64"⟩ (some (10, 17)) (some (pys "x86_64"))
        false).length = 70 ∧ (70 : Nat) ≠ 18 * 5 := by
  constructor
  · decide
  · decide

/-- C3 (amended): given version `(10, 17)` and architecture `x86_64`, the
macOS provider returns exactly `14 × 5 = 70` platform strings — the 14
contributing minor versions 17 down to 4, each with its 5 aliases — ordered
newest version first with each version's `universal` alias last. -/
theorem c3_mac_platforms_10_17_x86_64 :
    _mac_platforms ⟨(10, 14), pys "x86_64"⟩ (some (10, 17)) (some (pys "x86_64")) false =
      ((List.range' 4 14).reverse.flatMap fun minor =>
        [pys "x86_64", pys "intel", pys "fat64", pys "fat32", pys "universal"].map
          fun binary_format => macosxTag 10 minor binary_format) ∧
    ((List.range' 4 14).reverse.flatMap fun minor =>
        [pys "x86_64", pys "intel", pys "fat64", pys "fat32", pys "universal"].map
          fun binary_format => macosxTag 10 minor binary_format).length = 14 * 5 := by
  constructor
  · decide
  · decide

/-- C4: evaluation at the failing input.  Calling the macOS provider with
version `(10, 5)` and architecture `i386` on a host whose
`platform.mac_ver()` machine field is `x86_64` yields the x86_64 alias
tags, not the i386 alias tags the claim requires — the provider keys
`_mac_binary_formats` on the host-detected `cpu_arch`, ignoring the supplied
(and remapped) `arch` value. -/
theorem c4_mac_platforms_ignores_arch :
    _mac_platforms ⟨(10, 14), pys "x86_64"⟩ (some (10, 5)) (some (pys "i386")) true =
      [pys "macosx_10_5_x86_64", pys "macosx_10_5_intel", pys "macosx_10_5_fat64",
       pys "macosx_10_5_fat32", pys "macosx_10_5_universal",
       pys "macosx_10_4_x86_64", pys "macosx_10_4_intel", pys "macosx_10_4_fat64",
       pys "macosx_10_4_fat32", pys "macosx_10_4_universal"] ∧
    _mac_platforms ⟨(10, 14), pys "x86_64"⟩ (some (10, 5)) (some (pys "i386")) true ≠
      [pys "macosx_10_5_i386", pys "macosx_10_5_intel", pys "macosx_10_5_fat32",
       pys "macosx_10_5_fat", pys "macosx_10_5_universal",
       pys "macosx_10_4_i386", pys "macosx_10_4_intel", pys "macosx_10_4_fat32",
       pys "macosx_10_4_fat", pys "macosx_10_4_universal"] := by
  constructor
  · decide
  · decide

/-- C5: evaluation at the failing input.  On a host whose
`platform.system()` is `"Linux"`, the platform selection of `sys_tags`
falls through to the generic provider (one tag), because the source compares
the function object `platform.system` — not its call result — with
`"Linux"`; the Linux provider itself would produce the two-tag list with the
`manylinux1` variant. -/
theorem c5_sys_tags_linux_gets_generic :
    sys_tags_platforms
        ⟨pys "Linux", ⟨(10, 14), pys "x86_64"⟩, pys "linux-x86_64", some true, false⟩ =
      .ok (_generic_platforms (pys "linux-x86_64")) ∧
    _generic_platforms (pys "linux-x86_64") = [pys "linux_x86_64"] ∧
    _linux_platforms (pys "linux-x86_64") (some true) false =
      .ok [pys "linux_x86_64", pys "manylinux1_x86_64"] ∧
    sys_tags_platforms
        ⟨pys "Linux", ⟨(10, 14), pys "x86_64"⟩, pys "linux-x86_64", some true, false⟩ ≠
      .ok [pys "linux_x86_64", pys "manylinux1_x86_64"] := by
  refine ⟨rfl, rfl, rfl, fun h => absurd (Except.ok.inj h) (by decide)⟩

/-- C6 counterexample: on a host whose OS family is `"Windows"` — an OS
family with no dedicated supported provider — the platform selection
does not fail at all: it silently returns the generic provider's tag list. -/
theorem c6_counterexample :
    sys_tags_platforms
        ⟨pys "Windows", ⟨(10, 14), pys "x86_64"⟩, pys "win32", none, false⟩ =
      .ok [pys "win32"] := by
  rfl

/-- C6 (amended): platform detection never fails for a host OS family other
than macOS: every such family falls through to the generic provider, which
silently returns the normalized platform identifier (the Windows provider's
`NotImplementedError` is never reached, and no `UnsupportedPlatform`
condition exists). -/
theorem c6_non_darwin_falls_to_generic :
    ∀ host : Host, host.system ≠ pys "Darwin" →
      sys_tags_platforms host = .ok (_generic_platforms host.get_platform) := by
  intro host h
  rw [sys_tags_platforms, if_neg h]
  rfl

/-- C6 witness: the amended statement at a concrete Windows host. -/
theorem c6_witness :
    sys_tags_platforms
        ⟨pys "Windows", ⟨(10, 14), pys "x86_64"⟩, pys "win32", none, false⟩ =
      .ok (_generic_platforms (pys "win32")) :=
  c6_non_darwin_falls_to_generic
    ⟨pys "Windows", ⟨(10, 14), pys "x86_64"⟩, pys "win32", none, false⟩ (by decide)

/-- C10: for every architecture other than `x86_64`, `i386`, `ppc64` and
`ppc`, `_mac_binary_formats` is `[arch, "universal"]` for every version (no
version floor), so the macOS provider with that architecture as the
host-detected machine emits exactly 2 tags per minor version from the given
minor down to 0 — `2 * (minor + 1)` in total — and never an empty list. -/
theorem c10_unknown_arch_two_formats :
    ∀ cpu_arch : PyStr,
      cpu_arch ∉ [pys "x86_64", pys "i386", pys "ppc64", pys "ppc"] →
      (∀ version : Nat × Nat,
        _mac_binary_formats version cpu_arch = [cpu_arch, pys "universal"]) ∧
      (∀ (major minor : Nat) (host_release : Nat × Nat) (arch : Option PyStr)
          (is_32bit : Bool),
        (_mac_platforms ⟨host_release, cpu_arch⟩ (some (major, minor)) arch
            is_32bit).length = 2 * (minor + 1) ∧
        _mac_platforms ⟨host_release, cpu_arch⟩ (some (major, minor)) arch
            is_32bit ≠ []) := by
  intro cpu_arch h
  simp only [List.mem_cons, List.not_mem_nil, or_false, not_or] at h
  obtain ⟨h1, h2, h3, h4⟩ := h
  have hfmt : ∀ version : Nat × Nat,
      _mac_binary_formats version cpu_arch = [cpu_arch, pys "universal"] := by
    intro version
    rw [_mac_binary_formats, if_neg h1, if_neg h2, if_neg h3, if_neg h4]
  refine ⟨hfmt, ?_⟩
  intro major minor host_release arch is_32bit
  have hlen : (_mac_platforms ⟨host_release, cpu_arch⟩ (some (major, minor)) arch
      is_32bit).length = 2 * (minor + 1) := by
    rw [_mac_platforms]
    rw [length_flatMap_const _ _ 2 (fun x _ => by rw [hfmt]; rfl)]
    rw [List.length_map, List.length_range]
    simp only [Option.getD_some]
  refine ⟨hlen, fun hnil => ?_⟩
  rw [hnil] at hlen
  simp at hlen

/-- C10 witness: the general statement at the concrete architecture
`arm64` and version `(11, 2)`. -/
theorem c10_witness :
    _mac_binary_formats (11, 2) (pys "arm64") = [pys "arm64", pys "universal"] :=
  ((c10_unknown_arch_two_formats (pys "arm64") (by decide)).1 (11, 2))

end Pep425
